import Mathlib

/-!
Verification of the five-in-a-row (omok) board-game engine found in this
repository.  The engine keeps a 15 x 15 grid of cells (0 = Empty, 1 = Black /
PlayerA, 2 = White / PlayerB), the current player and an `active` flag.  The
definitions below are a shallow embedding of the engine functions
`initBoardState`, `handleClick`, `placeStone`, `checkWin`, `isValid`,
`endGame` and `resetGame`; the DOM / canvas drawing calls of the source are
pure UI effects and are dropped.
-/

namespace Omok

/-- `const BOARD_SIZE = 15`. -/
def BOARD_SIZE : Nat := 15

/-- The board: a JS array of rows, each row an array of cell values
(0 empty, 1 black, 2 white). -/
abbrev Board : Type := List (List Nat)

/-- Reading `board[r][c]`.  In the source every read is guarded so that the
indices are in bounds; out-of-range reads default to 0 here. -/
def getCell (b : Board) (r c : Int) : Nat :=
  (b.getD r.toNat []).getD c.toNat 0

/-- Writing `board[r][c] = v`. -/
def setCell (b : Board) (r c : Nat) (v : Nat) : Board :=
  b.set r ((b.getD r []).set c v)

/-- `isValid(r, c)`: `r >= 0 && r < BOARD_SIZE && c >= 0 && c < BOARD_SIZE`. -/
def isValid (r c : Int) : Bool :=
  decide (0 ≤ r) && decide (r < (BOARD_SIZE : Int)) &&
  decide (0 ≤ c) && decide (c < (BOARD_SIZE : Int))

/-- The all-empty board built by `initBoardState`:
`Array(BOARD_SIZE).fill().map(() => Array(BOARD_SIZE).fill(0))`. -/
def initBoard : Board :=
  List.replicate BOARD_SIZE (List.replicate BOARD_SIZE 0)

/-- The module-level game state: `board`, `currentPlayer` (1 black, 2 white)
and `gameActive`. -/
structure GameState where
  board : Board
  currentPlayer : Nat
  gameActive : Bool
deriving DecidableEq

/-- `initBoardState()`: all-empty board, black to move, game active. -/
def initBoardState : GameState :=
  { board := initBoard, currentPlayer := 1, gameActive := true }

/-- The four direction vectors of `checkWin`:
horizontal, vertical, diagonal, anti-diagonal. -/
def directions : List (Int × Int) := [(0, 1), (1, 0), (1, 1), (1, -1)]

/-- One direction-walk loop of `checkWin`:
`for (let i = 1; i < 5; i++) { ... if (isValid(nr,nc) && board[nr][nc] === player) count++; else break; }`.
`fuel` is the number of loop iterations left (4 in the source) and `i` the
current step index; the result is the number of consecutive matching cells. -/
def walk (b : Board) (r c dr dc : Int) (player : Nat) : Nat → Int → Nat
  | 0, _ => 0
  | fuel + 1, i =>
    if isValid (r + dr * i) (c + dc * i) &&
        (getCell b (r + dr * i) (c + dc * i) == player) then
      1 + walk b r c dr dc player fuel (i + 1)
    else 0

/-- `checkWin(r, c, player)`: for each direction, `count` starts at 1 (the
placed stone itself), the forward loop adds steps `r + dr*i`, the backward
loop adds steps `r - dr*i` (written here as a walk along `(-dr, -dc)`);
the function returns true as soon as some direction reaches `count >= 5`. -/
def checkWin (b : Board) (r c : Int) (player : Nat) : Bool :=
  directions.any fun d =>
    decide (5 ≤ 1 + walk b r c d.1 d.2 player 4 1 +
                walk b r c (-d.1) (-d.2) player 4 1)

/-- `endGame(winner)`: clears `gameActive`; the winner argument is only used
to render the modal text. -/
def endGame (s : GameState) (_winner : Nat) : GameState :=
  { s with gameActive := false }

/-- `placeStone(r, c)`: writes the current player's mark, then either ends
the game on a win or toggles `currentPlayer`. -/
def placeStone (s : GameState) (r c : Int) : GameState :=
  let b := setCell s.board r.toNat c.toNat s.currentPlayer
  if checkWin b r c s.currentPlayer then
    endGame { s with board := b } s.currentPlayer
  else
    { s with board := b,
             currentPlayer := if s.currentPlayer == 1 then 2 else 1 }

/-- Result signal of a move attempt: the early returns of `handleClick`
reject the move (spec: InvalidMove), otherwise the stone is placed. -/
inductive MoveSignal where
  | invalidMove
  | moved
deriving DecidableEq

/-- The engine part of `handleClick` (the pixel-to-index conversion is UI):
`if (!gameActive) return;` then the bounds check
`if (r < 0 || r >= BOARD_SIZE || c < 0 || c >= BOARD_SIZE) return;` then the
occupied check `if (board[r][c] !== 0) return;` and finally `placeStone`. -/
def handleClick (s : GameState) (r c : Int) : GameState × MoveSignal :=
  if s.gameActive = false then (s, .invalidMove)
  else if decide (r < 0) || decide ((BOARD_SIZE : Int) ≤ r) ||
          decide (c < 0) || decide ((BOARD_SIZE : Int) ≤ c) then
    (s, .invalidMove)
  else if getCell s.board r c != 0 then (s, .invalidMove)
  else (placeStone s r c, .moved)

/-- Modelled from the spec: the interface `applyMove(row, col, player)` takes
a player argument that the code does not have — the click handler always acts
as `currentPlayer`, so a move attributed to the player whose turn it is not
never reaches the board and is rejected as InvalidMove; a move by the player
to move is exactly the code's `handleClick`. -/
def applyMove (s : GameState) (r c : Int) (p : Nat) : GameState × MoveSignal :=
  if p = s.currentPlayer then handleClick s r c else (s, .invalidMove)

/-- `resetGame()` (engine part): re-runs `initBoardState`; the modal hiding
and redraw are UI effects. -/
def resetGame (_s : GameState) : GameState := initBoardState

/-- Folding a sequence of `applyMove` calls over a state, keeping only the
state (the caller of the engine discards the signal between clicks). -/
def applyMoves (s : GameState) (ms : List (Int × Int × Nat)) : GameState :=
  ms.foldl (fun st m => (applyMove st m.1 m.2.1 m.2.2).1) s

/-! ### List helper lemmas -/

theorem list_getD_set_eq {α : Type} (v d : α) :
    ∀ (l : List α) (i : Nat), i < l.length → (l.set i v).getD i d = v
  | a :: l, 0, _ => rfl
  | a :: l, i + 1, h => list_getD_set_eq v d l i (by simpa using h)

theorem list_getD_set_ne {α : Type} (v d : α) :
    ∀ (l : List α) (i j : Nat), i ≠ j → (l.set i v).getD j d = l.getD j d
  | [], _, _, _ => rfl
  | a :: l, 0, 0, h => absurd rfl h
  | a :: l, 0, j + 1, _ => rfl
  | a :: l, i + 1, 0, _ => rfl
  | a :: l, i + 1, j + 1, h => list_getD_set_ne v d l i j (by omega)

theorem list_set_of_length_le {α : Type} (v : α) :
    ∀ (l : List α) (i : Nat), l.length ≤ i → l.set i v = l
  | [], _, _ => rfl
  | a :: l, 0, h => by simp at h
  | a :: l, i + 1, h => by
    show a :: l.set i v = a :: l
    rw [list_set_of_length_le v l i (by simpa using h)]

theorem list_getD_replicate {α : Type} (a d : α) :
    ∀ (n i : Nat), i < n → (List.replicate n a).getD i d = a
  | n + 1, 0, _ => rfl
  | n + 1, i + 1, h => list_getD_replicate a d n i (by omega)

theorem list_getD_mem {α : Type} (d : α) :
    ∀ (l : List α) (i : Nat), i < l.length → l.getD i d ∈ l
  | a :: l, 0, _ => List.mem_cons_self a l
  | a :: l, i + 1, h =>
    List.mem_cons_of_mem a (list_getD_mem d l i (by simpa using h))

/-! ### Cell access lemmas -/

/-- `getCell` only looks at the `toNat` images of its index arguments. -/
theorem getCell_toNat (b : Board) (x y : Int) :
    getCell b x y = getCell b (x.toNat : Int) (y.toNat : Int) := by
  have hx : ((x.toNat : Int)).toNat = x.toNat := by omega
  have hy : ((y.toNat : Int)).toNat = y.toNat := by omega
  unfold getCell
  rw [hx, hy]

theorem getCell_setCell_eq (b : Board) (x y : Int) (v : Nat)
    (h1 : x.toNat < b.length) (h2 : y.toNat < (b.getD x.toNat []).length) :
    getCell (setCell b x.toNat y.toNat v) x y = v := by
  unfold getCell setCell
  rw [list_getD_set_eq _ _ _ _ (by simpa using h1)]
  rw [list_getD_set_eq _ _ _ _ (by simpa using h2)]

theorem getCell_setCell_ne (b : Board) (rn cn : Nat) (v : Nat) (x y : Int)
    (h : x.toNat ≠ rn ∨ y.toNat ≠ cn) :
    getCell (setCell b rn cn v) x y = getCell b x y := by
  unfold getCell setCell
  rcases h with h | h
  · rw [list_getD_set_ne _ _ _ _ _ (fun e => h e.symm)]
  · rcases eq_or_ne x.toNat rn with rfl | hr
    · rcases Nat.lt_or_ge x.toNat b.length with hlt | hge
      · rw [list_getD_set_eq _ _ _ _ hlt, list_getD_set_ne _ _ _ _ _ (fun e => h e.symm)]
      · rw [list_set_of_length_le _ _ _ hge]
    · rw [list_getD_set_ne _ _ _ _ _ (fun e => hr e.symm)]

/-! ### Walk lemmas -/

/-- Truncation: a walk with less fuel computes the minimum of the longer walk
and its own fuel. -/
theorem walk_min (b : Board) (r c dr dc : Int) (p : Nat) :
    ∀ (f k : Nat) (i : Int),
      walk b r c dr dc p f i = min (walk b r c dr dc p (f + k) i) f := by
  intro f
  induction f with
  | zero => intro k i; simp [walk]
  | succ f ih =>
    intro k i
    show walk b r c dr dc p (f + 1) i = min (walk b r c dr dc p (f + 1 + k) i) (f + 1)
    have hx : f + 1 + k = (f + k) + 1 := by omega
    rw [hx]
    by_cases hc : (isValid (r + dr * i) (c + dc * i) &&
        (getCell b (r + dr * i) (c + dc * i) == p)) = true
    · simp only [walk, hc, if_true]
      have := ih k (i + 1)
      omega
    · simp only [walk, hc, if_false, Bool.false_eq_true]
      omega

/-- Lower bound: if the first `k` steps of a walk all match, the walk counts
at least `k` (as long as it has fuel for them). -/
theorem walk_ge (b : Board) (r c dr dc : Int) (p : Nat) :
    ∀ (k fuel : Nat) (i : Int), k ≤ fuel →
      (∀ m : Nat, m < k →
        (isValid (r + dr * (i + m)) (c + dc * (i + m)) &&
          (getCell b (r + dr * (i + m)) (c + dc * (i + m)) == p)) = true) →
      k ≤ walk b r c dr dc p fuel i := by
  intro k
  induction k with
  | zero => intro fuel i _ _; exact Nat.zero_le _
  | succ k ih =>
    intro fuel i hk h
    obtain ⟨f, rfl⟩ : ∃ f, fuel = f + 1 := ⟨fuel - 1, by omega⟩
    have h0 := h 0 (by omega)
    simp only [Nat.cast_zero, add_zero] at h0
    simp only [walk, h0, if_true]
    have hrest : ∀ m : Nat, m < k →
        (isValid (r + dr * ((i + 1) + m)) (c + dc * ((i + 1) + m)) &&
          (getCell b (r + dr * ((i + 1) + m)) (c + dc * ((i + 1) + m)) == p)) = true := by
      intro m hm
      have := h (m + 1) (by omega)
      have hcast : i + ((m : Int) + 1) = (i + 1) + (m : Int) := by ring
      simpa [Nat.cast_add, Nat.cast_one, hcast] using this
    have := ih f (i + 1) (by omega) hrest
    omega

/-! ### Spec-side definitions -/

/-- The spec's per-direction count: consecutive same-player marks extending
from `(r, c)` in both directions along the axis `d`, the placed stone
included.  A walk of 14 steps reaches every cell of a 15-wide board, so the
fuel never truncates an in-bounds run. -/
def lineCount (b : Board) (r c : Int) (d : Int × Int) (player : Nat) : Nat :=
  1 + walk b r c d.1 d.2 player 14 1 + walk b r c (-d.1) (-d.2) player 14 1

/-- Whole-board scan: does the board contain, anywhere, five consecutive
in-bounds cells of `player` along one of the four directions?  (A run of
more than five contains such a window, so this captures "five or more".) -/
def hasWinningLine (b : Board) (player : Nat) : Bool :=
  (List.range BOARD_SIZE).any fun r0 =>
    (List.range BOARD_SIZE).any fun c0 =>
      directions.any fun d =>
        (List.range 5).all fun j =>
          isValid ((r0 : Int) + d.1 * j) ((c0 : Int) + d.2 * j) &&
          (getCell b ((r0 : Int) + d.1 * j) ((c0 : Int) + d.2 * j) == player)

/-- Propositional form of a winning window starting at `(r0, c0)` along `d`. -/
def lineAt (b : Board) (r0 c0 : Int) (d : Int × Int) (player : Nat) : Prop :=
  ∀ j : Nat, j < 5 →
    isValid (r0 + d.1 * j) (c0 + d.2 * j) = true ∧
    getCell b (r0 + d.1 * j) (c0 + d.2 * j) = player

theorem hasWinningLine_iff (b : Board) (p : Nat) :
    hasWinningLine b p = true ↔
      ∃ r0 c0 : Int, ∃ d ∈ directions, lineAt b r0 c0 d p := by
  unfold hasWinningLine
  simp only [List.any_eq_true, List.all_eq_true, List.mem_range,
    Bool.and_eq_true, beq_iff_eq, decide_eq_true_eq]
  constructor
  · rintro ⟨r0, _, c0, _, d, hd, hall⟩
    refine ⟨(r0 : Int), (c0 : Int), d, hd, ?_⟩
    intro j hj
    exact hall j (by simpa using hj)
  · rintro ⟨r0, c0, d, hd, hall⟩
    have h0 := hall 0 (by omega)
    simp only [Nat.cast_zero, mul_zero, add_zero] at h0
    have hv := h0.1
    simp only [isValid, Bool.and_eq_true, decide_eq_true_eq] at hv
    obtain ⟨⟨⟨hr0n, hr0b⟩, hc0n⟩, hc0b⟩ := hv
    have hB : ((BOARD_SIZE : Nat) : Int) = 15 := rfl
    have hBn : BOARD_SIZE = 15 := rfl
    refine ⟨r0.toNat, by omega, c0.toNat, by omega, d, hd, ?_⟩
    intro j hj
    have hr0 : ((r0.toNat : Int)) = r0 := by omega
    have hc0 : ((c0.toNat : Int)) = c0 := by omega
    rw [hr0, hc0]
    have := hall j (by simpa using hj)
    exact ⟨this.1, this.2⟩

/-! ### Example boards and states (used by the witnesses) -/

/-- Four black stones in a row at (0,1)..(0,4); no five-in-a-row yet. -/
def rowBoard4 : Board :=
  setCell (setCell (setCell (setCell initBoard 0 1 1) 0 2 1) 0 3 1) 0 4 1

/-- Five black stones in a row at (0,0)..(0,4). -/
def winBoard : Board := setCell rowBoard4 0 0 1

/-- A finished (won) game state. -/
def wonState : GameState :=
  { board := winBoard, currentPlayer := 1, gameActive := false }

/-- Black has (0,0)..(0,3) and is to move; (0,4) completes five in a row. -/
def fourState : GameState :=
  { board := setCell (setCell (setCell (setCell initBoard 0 0 1) 0 1 1) 0 2 1) 0 3 1,
    currentPlayer := 1, gameActive := true }

/-! ### Engine helper lemmas -/

/-- Well-formed board: 15 rows of 15 cells, as built by `initBoardState`. -/
def WF (b : Board) : Prop :=
  b.length = BOARD_SIZE ∧ ∀ row ∈ b, row.length = BOARD_SIZE

instance (b : Board) : Decidable (WF b) := by
  unfold WF; infer_instance

/-- An accepted click is exactly a `placeStone`. -/
theorem handleClick_accepted (s : GameState) (r c : Int)
    (hact : s.gameActive = true) (hv : isValid r c = true)
    (hemp : getCell s.board r c = 0) :
    handleClick s r c = (placeStone s r c, MoveSignal.moved) := by
  simp only [isValid, Bool.and_eq_true, decide_eq_true_eq] at hv
  obtain ⟨⟨⟨h1, h2⟩, h3⟩, h4⟩ := hv
  unfold handleClick
  rw [if_neg (by simp [hact]),
    if_neg (by simp only [Bool.or_eq_true, decide_eq_true_eq]; omega),
    if_neg (by simp [hemp])]

/-- `placeStone` writes the stone whether or not the move wins. -/
theorem placeStone_board (s : GameState) (r c : Int) :
    (placeStone s r c).board = setCell s.board r.toNat c.toNat s.currentPlayer := by
  unfold placeStone
  by_cases h :
    checkWin (setCell s.board r.toNat c.toNat s.currentPlayer) r c s.currentPlayer = true
  · simp [h, endGame]
  · simp [h]

/-- A winning `placeStone` ends the game and keeps `currentPlayer`. -/
theorem placeStone_win (s : GameState) (r c : Int)
    (h : checkWin (setCell s.board r.toNat c.toNat s.currentPlayer) r c
      s.currentPlayer = true) :
    placeStone s r c =
      { board := setCell s.board r.toNat c.toNat s.currentPlayer,
        currentPlayer := s.currentPlayer, gameActive := false } := by
  unfold placeStone endGame
  simp [h]

/-- A non-winning `placeStone` toggles `currentPlayer` and keeps the flag. -/
theorem placeStone_nowin (s : GameState) (r c : Int)
    (h : checkWin (setCell s.board r.toNat c.toNat s.currentPlayer) r c
      s.currentPlayer = false) :
    placeStone s r c =
      { board := setCell s.board r.toNat c.toNat s.currentPlayer,
        currentPlayer := if s.currentPlayer == 1 then 2 else 1,
        gameActive := s.gameActive } := by
  unfold placeStone
  simp [h]

/-- With the game over, every move attempt is rejected without any change. -/
theorem applyMove_inactive (s : GameState) (h : s.gameActive = false)
    (r c : Int) (p : Nat) :
    applyMove s r c p = (s, MoveSignal.invalidMove) := by
  unfold applyMove handleClick
  by_cases hp : p = s.currentPlayer
  · rw [if_pos hp, if_pos h]
  · rw [if_neg hp]

/-- With the game over, any sequence of move attempts leaves the state
untouched. -/
theorem applyMoves_inactive (s : GameState) (h : s.gameActive = false) :
    ∀ ms : List (Int × Int × Nat), applyMoves s ms = s := by
  intro ms
  induction ms with
  | nil => rfl
  | cons m ms ih =>
    unfold applyMoves at ih ⊢
    rw [List.foldl_cons]
    have hstep : (applyMove s m.1 m.2.1 m.2.2).1 = s := by
      rw [applyMove_inactive s h m.1 m.2.1 m.2.2]
    rw [hstep]
    exact ih

/-- One move attempt never clears or overwrites an occupied cell. -/
theorem applyMove_preserves_nonEmpty (s : GameState) (r c : Int) (p : Nat)
    (x y : Int) (h : getCell s.board x y ≠ 0) :
    getCell (applyMove s r c p).1.board x y = getCell s.board x y := by
  unfold applyMove handleClick
  split_ifs with hp hga hb hocc
  · rfl
  · rfl
  · rfl
  · have hemp : getCell s.board r c = 0 := by
      simpa using hocc
    show getCell (placeStone s r c).board x y = getCell s.board x y
    rw [placeStone_board]
    by_cases hx : x.toNat = r.toNat ∧ y.toNat = c.toNat
    · exfalso
      apply h
      rw [getCell_toNat, hx.1, hx.2, ← getCell_toNat]
      exact hemp
    · exact getCell_setCell_ne s.board r.toNat c.toNat s.currentPlayer x y
        (not_and_or.mp hx)
  · rfl

/-! ### Claim theorems -/

/-- C1: for every board, in-bounds position and player, `checkWin` returns
true iff for at least one of the four directions the count of consecutive
same-player marks extending from `(r, c)` in both directions (the placed
stone included) is at least 5; the test being `>= 5`, a run of six or more
also reports a win. -/
theorem checkWin_iff_lineCount (b : Board) (r c : Int) (player : Nat)
    (hv : isValid r c = true) :
    checkWin b r c player = true ↔
      ∃ d ∈ directions, 5 ≤ lineCount b r c d player := by
  unfold checkWin lineCount
  simp only [List.any_eq_true, decide_eq_true_eq]
  constructor
  · rintro ⟨d, hd, hcount⟩
    refine ⟨d, hd, ?_⟩
    have h1 : walk b r c d.1 d.2 player 4 1 =
        min (walk b r c d.1 d.2 player 14 1) 4 := walk_min b r c d.1 d.2 player 4 10 1
    have h2 : walk b r c (-d.1) (-d.2) player 4 1 =
        min (walk b r c (-d.1) (-d.2) player 14 1) 4 :=
      walk_min b r c (-d.1) (-d.2) player 4 10 1
    omega
  · rintro ⟨d, hd, hcount⟩
    refine ⟨d, hd, ?_⟩
    have h1 : walk b r c d.1 d.2 player 4 1 =
        min (walk b r c d.1 d.2 player 14 1) 4 := walk_min b r c d.1 d.2 player 4 10 1
    have h2 : walk b r c (-d.1) (-d.2) player 4 1 =
        min (walk b r c (-d.1) (-d.2) player 14 1) 4 :=
      walk_min b r c (-d.1) (-d.2) player 4 10 1
    omega

/-- Witness for C1 at a concrete board and position. -/
theorem checkWin_iff_lineCount_witness :
    checkWin winBoard 0 0 1 = true ↔
      ∃ d ∈ directions, 5 ≤ lineCount winBoard 0 0 d 1 :=
  checkWin_iff_lineCount winBoard 0 0 1 (by decide)

/-- C2: checking only from the just-placed stone is as strong as scanning the
whole board: if a board held no winning line for `player`, a stone of
`player` is placed on an empty in-bounds cell `(r, c)`, and the resulting
board contains a winning line for `player`, then `checkWin (r, c, player)`
on the resulting board returns true — the new line must pass through the new
stone. -/
theorem checkWin_complete (b : Board) (r c : Int) (player : Nat)
    (hv : isValid r c = true) (hemp : getCell b r c = 0)
    (hnoline : hasWinningLine b player = false)
    (hwin : hasWinningLine (setCell b r.toNat c.toNat player) player = true) :
    checkWin (setCell b r.toNat c.toNat player) r c player = true := by
  obtain ⟨r0, c0, d, hd, hline⟩ :=
    (hasWinningLine_iff (setCell b r.toNat c.toNat player) player).mp hwin
  have hvv := hv
  simp only [isValid, Bool.and_eq_true, decide_eq_true_eq] at hvv
  obtain ⟨⟨⟨hrn, hrb⟩, hcn⟩, hcb⟩ := hvv
  by_cases hthrough : ∃ j : Nat, j < 5 ∧ r0 + d.1 * j = r ∧ c0 + d.2 * j = c
  · obtain ⟨j0, hj5, hr, hc⟩ := hthrough
    have hfwd : (4 - j0 : Nat) ≤
        walk (setCell b r.toNat c.toNat player) r c d.1 d.2 player 4 1 := by
      apply walk_ge
      · omega
      · intro m hm
        have hj := hline (j0 + 1 + m) (by omega)
        have e1 : r0 + d.1 * ((j0 + 1 + m : Nat) : Int) = r + d.1 * (1 + (m : Int)) := by
          rw [← hr]; push_cast; ring
        have e2 : c0 + d.2 * ((j0 + 1 + m : Nat) : Int) = c + d.2 * (1 + (m : Int)) := by
          rw [← hc]; push_cast; ring
        rw [e1, e2] at hj
        simp [hj.1, hj.2]
    have hbwd : j0 ≤
        walk (setCell b r.toNat c.toNat player) r c (-d.1) (-d.2) player 4 1 := by
      apply walk_ge
      · omega
      · intro m hm
        have hj := hline (j0 - 1 - m) (by omega)
        have ej : ((j0 - 1 - m : Nat) : Int) = (j0 : Int) - 1 - m := by omega
        have e1 : r0 + d.1 * ((j0 - 1 - m : Nat) : Int) = r + (-d.1) * (1 + (m : Int)) := by
          rw [← hr, ej]; ring
        have e2 : c0 + d.2 * ((j0 - 1 - m : Nat) : Int) = c + (-d.2) * (1 + (m : Int)) := by
          rw [← hc, ej]; ring
        rw [e1, e2] at hj
        simp only [neg_mul] at hj
        simp [hj.1, hj.2]
    unfold checkWin
    simp only [List.any_eq_true, decide_eq_true_eq]
    exact ⟨d, hd, by omega⟩
  · exfalso
    have hold : lineAt b r0 c0 d player := by
      intro j hj
      have hj2 := hline j hj
      have hne : ¬(r0 + d.1 * j = r ∧ c0 + d.2 * j = c) :=
        fun hh => hthrough ⟨j, hj, hh.1, hh.2⟩
      have hvj := hj2.1
      simp only [isValid, Bool.and_eq_true, decide_eq_true_eq] at hvj
      obtain ⟨⟨⟨hx1, hx2⟩, hy1⟩, hy2⟩ := hvj
      have hcell : getCell (setCell b r.toNat c.toNat player)
          (r0 + d.1 * j) (c0 + d.2 * j) = getCell b (r0 + d.1 * j) (c0 + d.2 * j) := by
        apply getCell_setCell_ne
        rcases not_and_or.mp hne with hh | hh
        · left; omega
        · right; omega
      exact ⟨hj2.1, by rw [← hcell]; exact hj2.2⟩
    have hcontra : hasWinningLine b player = true :=
      (hasWinningLine_iff b player).mpr ⟨r0, c0, d, hd, hold⟩
    rw [hnoline] at hcontra
    exact Bool.false_ne_true hcontra

/-- Witness for C2: placing black at (0,0) on a board that holds black
stones at (0,1)..(0,4) creates the first winning line and `checkWin` sees
it from the placed stone. -/
theorem checkWin_complete_witness :
    checkWin (setCell rowBoard4 (0 : Int).toNat (0 : Int).toNat 1) 0 0 1 = true :=
  checkWin_complete rowBoard4 0 0 1 (by decide) (by decide) (by decide) (by decide)

/-- C9: `checkWin` counts the origin cell unconditionally (`count` starts at
1 whatever the board holds at `(r, c)`): if only four consecutive marks of
`player` lie adjacent to an in-bounds `(r, c)` along some direction, then
`checkWin (r, c, player)` already returns true even though the cell
`(r, c)` does not hold the player's mark. -/
theorem checkWin_counts_origin (b : Board) (r c : Int) (player : Nat)
    (hv : isValid r c = true) (hne : getCell b r c ≠ player)
    (d : Int × Int) (hd : d ∈ directions)
    (hfour : ∀ m : Nat, m < 4 →
      isValid (r + d.1 * (1 + (m : Int))) (c + d.2 * (1 + (m : Int))) = true ∧
      getCell b (r + d.1 * (1 + (m : Int))) (c + d.2 * (1 + (m : Int))) = player) :
    checkWin b r c player = true := by
  have hfwd : 4 ≤ walk b r c d.1 d.2 player 4 1 := by
    apply walk_ge
    · omega
    · intro m hm
      have := hfour m hm
      simp [this.1, this.2]
  unfold checkWin
  simp only [List.any_eq_true, decide_eq_true_eq]
  exact ⟨d, hd, by omega⟩

/-- Witness for C9: the origin (0,0) is Empty, only (0,1)..(0,4) hold black
stones, yet `checkWin` reports a black win at (0,0). -/
theorem checkWin_counts_origin_witness :
    getCell rowBoard4 0 0 = 0 ∧ checkWin rowBoard4 0 0 1 = true := by
  refine ⟨by decide, ?_⟩
  exact checkWin_counts_origin rowBoard4 0 0 1 (by decide) (by decide) (0, 1)
    (by decide) (by decide)

/-- C3: a move on an occupied cell, an out-of-bounds coordinate, a finished
game, or out of turn is rejected with the InvalidMove signal and the whole
state — in particular the grid — is returned unchanged. -/
theorem invalidMove_rejected (s : GameState) (r c : Int) (p : Nat)
    (h : getCell s.board r c ≠ 0 ∨ isValid r c = false ∨
         s.gameActive = false ∨ p ≠ s.currentPlayer) :
    applyMove s r c p = (s, MoveSignal.invalidMove) := by
  unfold applyMove handleClick
  split_ifs with hp hga hb hocc
  · rfl
  · rfl
  · rfl
  · exfalso
    rcases h with h | h | h | h
    · exact h (by simpa using hocc)
    · have hvt : isValid r c = true := by
        simp only [Bool.or_eq_true, decide_eq_true_eq] at hb
        push_neg at hb
        simp only [isValid, Bool.and_eq_true, decide_eq_true_eq]
        omega
      rw [h] at hvt
      exact Bool.false_ne_true hvt
    · exact hga h
    · exact h hp
  · rfl

/-- Witness for C3: an out-of-bounds click on the fresh board. -/
theorem invalidMove_rejected_witness :
    applyMove initBoardState (-1) 0 1 = (initBoardState, MoveSignal.invalidMove) :=
  invalidMove_rejected initBoardState (-1) 0 1 (Or.inr (Or.inl (by decide)))

/-- C4: after an accepted non-winning move the active player is the other
player (1 becomes 2 and 2 becomes 1); after a rejected move the active
player is unchanged. -/
theorem turn_alternation (s : GameState) (r c : Int) (p : Nat) :
    ((applyMove s r c p).2 = MoveSignal.moved →
      (applyMove s r c p).1.gameActive = true →
      ((s.currentPlayer = 1 → (applyMove s r c p).1.currentPlayer = 2) ∧
       (s.currentPlayer = 2 → (applyMove s r c p).1.currentPlayer = 1))) ∧
    ((applyMove s r c p).2 = MoveSignal.invalidMove →
      (applyMove s r c p).1.currentPlayer = s.currentPlayer) := by
  unfold applyMove handleClick
  split_ifs with hp hga hb hocc
  · exact ⟨fun h => h.elim, fun _ => rfl⟩
  · exact ⟨fun h => h.elim, fun _ => rfl⟩
  · exact ⟨fun h => h.elim, fun _ => rfl⟩
  · by_cases hw :
      checkWin (setCell s.board r.toNat c.toNat s.currentPlayer) r c s.currentPlayer = true
    · rw [placeStone_win s r c hw]
      exact ⟨fun _ hact => absurd hact Bool.false_ne_true, fun h => h.elim⟩
    · rw [placeStone_nowin s r c (by simpa using hw)]
      refine ⟨fun _ _ => ⟨fun h1 => ?_, fun h2 => ?_⟩, fun h => h.elim⟩
      · show (if s.currentPlayer == 1 then 2 else 1) = 2
        rw [h1]; decide
      · show (if s.currentPlayer == 1 then 2 else 1) = 1
        rw [h2]; decide
  · exact ⟨fun h => h.elim, fun _ => rfl⟩

/-- Witness for C4: the first move of a fresh game hands the turn to white;
a wrong-turn attempt by white leaves it black's turn. -/
theorem turn_alternation_witness :
    (applyMove initBoardState 7 7 1).1.currentPlayer = 2 ∧
    (applyMove initBoardState 7 7 2).1.currentPlayer = 1 := by
  constructor
  · exact ((turn_alternation initBoardState 7 7 1).1 (by decide) (by decide)).1 rfl
  · exact (turn_alternation initBoardState 7 7 2).2 (by decide)

/-- C5: once the game is won (`gameActive` cleared), every later move
attempt is rejected with InvalidMove and the state is a fixed point of any
sequence of move attempts; `resetGame` is the only operation that makes the
session active again. -/
theorem won_absorbing_until_reset (s : GameState) (h : s.gameActive = false) :
    (∀ r c : Int, ∀ p : Nat, applyMove s r c p = (s, MoveSignal.invalidMove)) ∧
    (∀ ms : List (Int × Int × Nat), applyMoves s ms = s) ∧
    (resetGame s).gameActive = true :=
  ⟨fun r c p => applyMove_inactive s h r c p, applyMoves_inactive s h, rfl⟩

/-- Witness for C5 on a concrete finished game. -/
theorem won_absorbing_until_reset_witness :
    applyMove wonState 3 3 1 = (wonState, MoveSignal.invalidMove) ∧
    applyMoves wonState [(0, 5, 2), (1, 1, 1)] = wonState ∧
    (resetGame wonState).gameActive = true := by
  obtain ⟨h1, h2, h3⟩ := won_absorbing_until_reset wonState rfl
  exact ⟨h1 3 3 1, h2 [(0, 5, 2), (1, 1, 1)], h3⟩

/-- C6: an accepted move is reported as such, writes the acting player's
mark (a non-Empty value) on the previously Empty target cell, and leaves
every other cell of the grid unchanged. -/
theorem move_frame (s : GameState) (r c : Int)
    (hwf : WF s.board) (hact : s.gameActive = true) (hv : isValid r c = true)
    (hemp : getCell s.board r c = 0)
    (hp : s.currentPlayer = 1 ∨ s.currentPlayer = 2) :
    (handleClick s r c).2 = MoveSignal.moved ∧
    getCell (handleClick s r c).1.board r c = s.currentPlayer ∧
    s.currentPlayer ≠ 0 ∧
    (∀ x y : Int, isValid x y = true → (x ≠ r ∨ y ≠ c) →
      getCell (handleClick s r c).1.board x y = getCell s.board x y) := by
  rw [handleClick_accepted s r c hact hv hemp]
  have hBn : BOARD_SIZE = 15 := rfl
  have hvv := hv
  simp only [isValid, Bool.and_eq_true, decide_eq_true_eq] at hvv
  obtain ⟨⟨⟨h1, h2⟩, h3⟩, h4⟩ := hvv
  have hlen : s.board.length = BOARD_SIZE := hwf.1
  have hrow : (s.board.getD r.toNat []).length = BOARD_SIZE :=
    hwf.2 _ (list_getD_mem [] s.board r.toNat (by omega))
  refine ⟨rfl, ?_, by rcases hp with hh | hh <;> omega, ?_⟩
  · show getCell (placeStone s r c).board r c = s.currentPlayer
    rw [placeStone_board]
    exact getCell_setCell_eq s.board r c s.currentPlayer (by omega) (by omega)
  · intro x y hvxy hne
    show getCell (placeStone s r c).board x y = getCell s.board x y
    rw [placeStone_board]
    simp only [isValid, Bool.and_eq_true, decide_eq_true_eq] at hvxy
    obtain ⟨⟨⟨hx1, hx2⟩, hy1⟩, hy2⟩ := hvxy
    apply getCell_setCell_ne
    rcases hne with hh | hh
    · left; omega
    · right; omega

/-- Witness for C6: the first stone of a game lands on (7,7) and (3,4) is
untouched. -/
theorem move_frame_witness :
    (handleClick initBoardState 7 7).2 = MoveSignal.moved ∧
    getCell (handleClick initBoardState 7 7).1.board 7 7 =
      initBoardState.currentPlayer ∧
    initBoardState.currentPlayer ≠ 0 ∧
    getCell (handleClick initBoardState 7 7).1.board 3 4 =
      getCell initBoardState.board 3 4 := by
  obtain ⟨h1, h2, h3, h4⟩ := move_frame initBoardState 7 7 (by decide) rfl
    (by decide) (by decide) (Or.inl rfl)
  exact ⟨h1, h2, h3, h4 3 4 (by decide) (Or.inl (by decide))⟩

/-- C7: whatever the prior state, `resetGame` yields the state in which
every in-bounds cell is Empty, the active player is black (PlayerA) and the
session is active. -/
theorem reset_spec (s : GameState) :
    (∀ r c : Int, isValid r c = true → getCell (resetGame s).board r c = 0) ∧
    (resetGame s).currentPlayer = 1 ∧ (resetGame s).gameActive = true := by
  refine ⟨?_, rfl, rfl⟩
  intro r c hv
  simp only [isValid, Bool.and_eq_true, decide_eq_true_eq] at hv
  obtain ⟨⟨⟨h1, h2⟩, h3⟩, h4⟩ := hv
  have hBn : BOARD_SIZE = 15 := rfl
  show getCell initBoard r c = 0
  unfold initBoard getCell
  rw [list_getD_replicate _ _ _ _ (by omega), list_getD_replicate _ _ _ _ (by omega)]

/-- Witness for C7 after a finished game. -/
theorem reset_spec_witness :
    getCell (resetGame wonState).board 0 0 = 0 ∧
    (resetGame wonState).currentPlayer = 1 ∧
    (resetGame wonState).gameActive = true := by
  obtain ⟨h1, h2, h3⟩ := reset_spec wonState
  exact ⟨h1 0 0 (by decide), h2, h3⟩

/-- C8: within a game (any sequence of move attempts, no reset), a cell
that is not Empty keeps its mark: every move attempt preserves the value of
every occupied cell. -/
theorem cell_never_cleared (s : GameState) (ms : List (Int × Int × Nat))
    (x y : Int) (h : getCell s.board x y ≠ 0) :
    getCell (applyMoves s ms).board x y = getCell s.board x y := by
  induction ms generalizing s with
  | nil => rfl
  | cons m ms ih =>
    unfold applyMoves
    rw [List.foldl_cons]
    have hstep := applyMove_preserves_nonEmpty s m.1 m.2.1 m.2.2 x y h
    have hne2 : getCell (applyMove s m.1 m.2.1 m.2.2).1.board x y ≠ 0 := by
      rw [hstep]; exact h
    have := ih (applyMove s m.1 m.2.1 m.2.2).1 hne2
    unfold applyMoves at this
    rw [this, hstep]

/-- Witness for C8: the black stone at (0,0) survives two further moves,
one of which wins the game. -/
theorem cell_never_cleared_witness :
    getCell (applyMoves fourState [(0, 4, 1), (5, 5, 2)]).board 0 0 =
      getCell fourState.board 0 0 :=
  cell_never_cleared fourState [(0, 4, 1), (5, 5, 2)] 0 0 (by decide)

/-- C10: a winning move does not toggle the active-player variable: the
state reached by an accepted move that ends the game carries the winner
(the acting player, which is also the value `endGame` renders) in
`currentPlayer`, and it stays there for the whole Won state. -/
theorem winner_player_preserved (s : GameState) (r c : Int) (p : Nat)
    (hacc : (applyMove s r c p).2 = MoveSignal.moved)
    (hwon : (applyMove s r c p).1.gameActive = false) :
    (applyMove s r c p).1.currentPlayer = p ∧
    ∀ ms : List (Int × Int × Nat),
      (applyMoves (applyMove s r c p).1 ms).currentPlayer = p := by
  by_cases hp : p = s.currentPlayer
  · unfold applyMove at hacc hwon ⊢
    rw [if_pos hp] at hacc hwon ⊢
    unfold handleClick at hacc hwon ⊢
    split_ifs at hacc hwon ⊢ with hga hb hocc
    by_cases hw :
      checkWin (setCell s.board r.toNat c.toNat s.currentPlayer) r c
        s.currentPlayer = true
    · rw [placeStone_win s r c hw]
      refine ⟨hp.symm, ?_⟩
      intro ms
      rw [applyMoves_inactive _ rfl ms]
      exact hp.symm
    · rw [placeStone_nowin s r c (by simpa using hw)] at hwon
      exact absurd hwon hga
  · unfold applyMove at hacc
    rw [if_neg hp] at hacc
    exact MoveSignal.noConfusion hacc

/-- Witness for C10: black completes five in a row at (0,4); black stays
the current player through a further (rejected) move attempt. -/
theorem winner_player_preserved_witness :
    (applyMove fourState 0 4 1).1.currentPlayer = 1 ∧
    (applyMoves (applyMove fourState 0 4 1).1 [(5, 5, 2)]).currentPlayer = 1 := by
  obtain ⟨h1, h2⟩ := winner_player_preserved fourState 0 4 1 (by decide) (by decide)
  exact ⟨h1, h2 [(5, 5, 2)]⟩

end Omok
